import Mathlib

/-!
Shallow embedding of the superflore recipe-generation pipeline:
the ebuild batch driver and helpers in src/gen_packages.py and the Nix
recipe assembler in superflore/generators/nix/nix_package.py.

Python strings are modelled as lists of characters, so that the string
operations used by the source (split, replace, slicing) become list
operations; Python dictionaries are modelled as association lists with
most-recent binding first; exceptions are modelled with Option/Except.
-/

namespace Superflore

/-- A Python string, modelled as its list of characters. -/
abbrev Str := List Char

/-- The backtick character (codepoint 96), written by codepoint to keep the
source file free of literal backticks. -/
def backtick : Char := Char.ofNat 96

/-- Embeds gen_packages.get_pkg_version. The release repository version
string is split on dashes and unpacked into exactly two parts
(maj_min_patch, deb_inc); a split that does not produce exactly two parts
raises in Python, modelled as none. A Debian increment other than the
string 0 is rendered as an -r suffix. -/
def get_pkg_version (version : Str) : Option Str :=
  match version.splitOn '-' with
  | [maj_min_patch, deb_inc] =>
      some (if deb_inc ≠ ['0']
            then maj_min_patch ++ '-' :: 'r' :: deb_inc
            else maj_min_patch)
  | _ => none

/-- Embeds the description normalization of
gen_packages._gen_ebuild_for_package (lines 193-197): all backtick
characters are removed first, then the result is truncated to 80
characters when it is longer than 80. -/
def clean_description (description : Str) : Str :=
  let description := description.filter (fun c => c != backtick)
  if description.length > 80 then description.take 80 else description

/-- Embeds NixPackage.normalize_name: replace every underscore with a dash
to match Nix package naming conventions. -/
def normalize_name (name : Str) : Str :=
  name.map (fun c => if c = '_' then '-' else c)

/-- A string all of whose characters are decimal digits, as the numeric
components of a release version are. -/
def DigitStr (s : Str) : Prop := s ≠ [] ∧ ∀ x ∈ s, x.isDigit

instance (s : Str) : Decidable (DigitStr s) := by
  unfold DigitStr; infer_instance

theorem digit_ne_dash {x : Char} (hx : x.isDigit = true) : x ≠ '-' := by
  intro h
  rw [h] at hx
  exact absurd hx (by decide)

theorem digit_ne_dot {x : Char} (hx : x.isDigit = true) : x ≠ '.' := by
  intro h
  rw [h] at hx
  exact absurd hx (by decide)

theorem splitOn_append_cons {sep : Char} {m n : Str}
    (hm : ∀ x ∈ m, x ≠ sep) (hn : ∀ x ∈ n, x ≠ sep) :
    (m ++ sep :: n).splitOn sep = [m, n] := by
  unfold List.splitOn
  rw [List.splitOnP_first _ _ (fun x hx h => hm x hx (by simpa using h)) sep (by simp),
      List.splitOnP_eq_single _ _ (fun x hx h => hn x hx (by simpa using h))]

/-- Claim C3: for every release version string of the form
major.minor.patch-n (numeric components), the rendered version is
major.minor.patch when n is the string 0, and major.minor.patch-rn
otherwise; in particular 1.2.3-0 renders as 1.2.3 and 1.2.3-4 renders as
1.2.3-r4. -/
theorem version_formatting (a b c n : Str)
    (hA : DigitStr a) (hB : DigitStr b) (hC : DigitStr c) (hN : DigitStr n) :
    get_pkg_version (a ++ '.' :: b ++ '.' :: c ++ '-' :: n)
      = some (if n = ['0']
              then a ++ '.' :: b ++ '.' :: c
              else a ++ '.' :: b ++ '.' :: c ++ '-' :: 'r' :: n) ∧
    get_pkg_version ("1.2.3-0").toList = some (("1.2.3").toList) ∧
    get_pkg_version ("1.2.3-4").toList = some (("1.2.3-r4").toList) := by
  refine ⟨?_, by decide, by decide⟩
  have hm : ∀ x ∈ a ++ '.' :: b ++ '.' :: c, x ≠ '-' := by
    intro x hx
    have hx2 : x ∈ a ∨ x = '.' ∨ x ∈ b ∨ x = '.' ∨ x ∈ c := by
      simpa using hx
    rcases hx2 with h | h | h | h | h
    · exact digit_ne_dash (hA.2 x h)
    · subst h; decide
    · exact digit_ne_dash (hB.2 x h)
    · subst h; decide
    · exact digit_ne_dash (hC.2 x h)
  have hn : ∀ x ∈ n, x ≠ '-' := fun x hx => digit_ne_dash (hN.2 x hx)
  have hassoc : a ++ '.' :: b ++ '.' :: c ++ '-' :: n
      = (a ++ '.' :: b ++ '.' :: c) ++ '-' :: n := by
    simp
  rw [get_pkg_version, hassoc, splitOn_append_cons hm hn]
  by_cases h0 : n = ['0'] <;> simp [h0]

/-- Claim C3 witness at concrete digit strings. -/
theorem version_formatting_witness :
    get_pkg_version (['1'] ++ '.' :: ['2'] ++ '.' :: ['3'] ++ '-' :: ['4'])
      = some (if ['4'] = ['0']
              then ['1'] ++ '.' :: ['2'] ++ '.' :: ['3']
              else ['1'] ++ '.' :: ['2'] ++ '.' :: ['3'] ++ '-' :: 'r' :: ['4']) ∧
    get_pkg_version ("1.2.3-0").toList = some (("1.2.3").toList) ∧
    get_pkg_version ("1.2.3-4").toList = some (("1.2.3-r4").toList) :=
  version_formatting ['1'] ['2'] ['3'] ['4']
    (by decide) (by decide) (by decide) (by decide)

theorem clean_description_eq (d : Str) :
    clean_description d = (d.filter (fun c => c != backtick)).take 80 := by
  unfold clean_description
  by_cases h : (d.filter (fun c => c != backtick)).length > 80
  · rw [if_pos h]
  · rw [if_neg h, List.take_of_length_le (le_of_not_lt h)]

/-- Claim C4: a 120-character description is rendered as the first 80
characters of the input after all backticks are removed; more generally
any description whose backtick-stripped form exceeds the 80-character cap
is truncated to the cap after the backticks are stripped. -/
theorem description_truncation :
    (∀ d : Str, d.length = 120 →
       clean_description d = (d.filter (fun c => c != backtick)).take 80) ∧
    (∀ d : Str, 80 < (d.filter (fun c => c != backtick)).length →
       clean_description d = (d.filter (fun c => c != backtick)).take 80) := by
  exact ⟨fun d _ => clean_description_eq d, fun d _ => clean_description_eq d⟩

/-- Claim C4 witness at a concrete 120-character description. -/
theorem description_truncation_witness :
    clean_description (List.replicate 120 'a')
      = ((List.replicate 120 'a').filter (fun c => c != backtick)).take 80 :=
  description_truncation.1 (List.replicate 120 'a') (by decide)

/-- The filesystem and shared-cache state seen by the archive handling in
NixPackage.__init__: the archive paths present on disk, the shared
sha256_cache dictionary (an association list, most recent binding first),
and logs of the download and hash-computation events performed so far in
the run. -/
structure ArchiveState where
  disk : List Str
  cache : List (Str × Str)
  downloads : List Str
  hashed : List Str
deriving DecidableEq

/-- Embeds the archive handling of NixPackage.__init__ (lines 46-60):
download the archive when the cache path is absent from disk, then compute
and store the sha256 when the archive was freshly downloaded or the path
is not yet memoized in sha256_cache, and finally read the memoized digest.
The content hash of the file at a path is supplied by the function h:
within a run an archive file is never rewritten, so its hash is a function
of its path. -/
def ensureAndHash (h : Str → Str) (st : ArchiveState) (archive_path : Str) :
    ArchiveState × Str :=
  let st1 := if archive_path ∈ st.disk then st else
    { st with disk := archive_path :: st.disk,
              downloads := st.downloads ++ [archive_path] }
  let st2 := if archive_path ∉ st.disk ∨ st1.cache.lookup archive_path = none then
    { st1 with cache := (archive_path, h archive_path) :: st1.cache,
               hashed := st1.hashed ++ [archive_path] }
    else st1
  (st2, (st2.cache.lookup archive_path).getD [])

/-- A run: the sequence of archive-ensure operations performed by the
successive NixPackage constructions sharing one sha256_cache. -/
def runArchive (h : Str → Str) (st : ArchiveState) (paths : List Str) : ArchiveState :=
  paths.foldl (fun s p => (ensureAndHash h s p).1) st

/-- Every memoized path is present on disk. This invariant holds throughout
a run: the cache starts empty, and a hash is only stored immediately after
the file at the path was ensured to exist (it was just read), while nothing
in the generator deletes archives. -/
def CacheOnDisk (st : ArchiveState) : Prop :=
  ∀ e ∈ st.cache, e.1 ∈ st.disk

instance (st : ArchiveState) : Decidable (CacheOnDisk st) := by
  unfold CacheOnDisk; infer_instance

theorem lookup_cons_ne {q p v : Str} {l : List (Str × Str)} (hq : q ≠ p) :
    List.lookup q ((p, v) :: l) = List.lookup q l := by
  have hb : (q == p) = false := by simpa using hq
  simp [List.lookup, hb]

theorem lookup_isSome_mem {q : Str} {l : List (Str × Str)}
    (hl : l.lookup q ≠ none) : ∃ v, (q, v) ∈ l := by
  induction l with
  | nil => simp [List.lookup] at hl
  | cons e rest ih =>
    obtain ⟨k, v⟩ := e
    by_cases hq : q = k
    · subst hq
      exact ⟨v, List.mem_cons_self _ _⟩
    · rw [lookup_cons_ne hq] at hl
      obtain ⟨w, hw⟩ := ih hl
      exact ⟨w, List.mem_cons_of_mem _ hw⟩

/-- Normal form of the archive step when the file is cached on disk but its
hash is not yet memoized: the hash is computed and stored, nothing is
downloaded. -/
theorem ensureAndHash_present_new (h : Str → Str) (st : ArchiveState) (p : Str)
    (hd : p ∈ st.disk) (hc : st.cache.lookup p = none) :
    ensureAndHash h st p
      = ({ st with cache := (p, h p) :: st.cache,
                   hashed := st.hashed ++ [p] }, h p) := by
  simp [ensureAndHash, hd, hc, List.lookup]

/-- Normal form of the archive step when the file is cached on disk and its
hash is memoized: the state is unchanged and the memoized digest is
returned. -/
theorem ensureAndHash_present_memoized (h : Str → Str) (st : ArchiveState)
    (p : Str) (hd : p ∈ st.disk) (hc : st.cache.lookup p ≠ none) :
    ensureAndHash h st p = (st, (st.cache.lookup p).getD []) := by
  simp [ensureAndHash, hd, hc]

/-- Normal form of the archive step when the file is absent: it is
downloaded and its hash computed and stored. -/
theorem ensureAndHash_absent (h : Str → Str) (st : ArchiveState) (p : Str)
    (hd : p ∉ st.disk) :
    ensureAndHash h st p
      = ({ st with disk := p :: st.disk,
                   downloads := st.downloads ++ [p],
                   cache := (p, h p) :: st.cache,
                   hashed := st.hashed ++ [p] }, h p) := by
  simp [ensureAndHash, hd, List.lookup]

theorem ensureAndHash_cacheOnDisk (h : Str → Str) (st : ArchiveState) (p : Str)
    (hst : CacheOnDisk st) : CacheOnDisk (ensureAndHash h st p).1 := by
  by_cases hd : p ∈ st.disk
  · by_cases hc : st.cache.lookup p = none
    · rw [ensureAndHash_present_new h st p hd hc]
      intro e he
      rcases List.mem_cons.1 he with rfl | he
      · exact hd
      · exact hst e he
    · rw [ensureAndHash_present_memoized h st p hd hc]
      exact hst
  · rw [ensureAndHash_absent h st p hd]
    intro e he
    rcases List.mem_cons.1 he with rfl | he
    · exact List.mem_cons_self _ _
    · exact List.mem_cons_of_mem _ (hst e he)

/-- When the path is already memoized and the invariant holds, the archive
step is a no-op on the state. -/
theorem ensureAndHash_memoized (h : Str → Str) (st : ArchiveState) (p : Str)
    (hst : CacheOnDisk st) (hmem : st.cache.lookup p ≠ none) :
    (ensureAndHash h st p).1 = st := by
  obtain ⟨v, hv⟩ := lookup_isSome_mem hmem
  have hd : p ∈ st.disk := hst (p, v) hv
  rw [ensureAndHash_present_memoized h st p hd hmem]

theorem ensureAndHash_lookup_ne (h : Str → Str) (st : ArchiveState) (p q : Str)
    (hq : q ≠ p) :
    (ensureAndHash h st p).1.cache.lookup q = st.cache.lookup q := by
  by_cases hd : p ∈ st.disk
  · by_cases hc : st.cache.lookup p = none
    · rw [ensureAndHash_present_new h st p hd hc]
      exact lookup_cons_ne hq
    · rw [ensureAndHash_present_memoized h st p hd hc]
  · rw [ensureAndHash_absent h st p hd]
    exact lookup_cons_ne hq

theorem ensureAndHash_hashed_ne (h : Str → Str) (st : ArchiveState) (p q : Str)
    (hq : q ≠ p) :
    (ensureAndHash h st p).1.hashed.count q = st.hashed.count q := by
  have hb : (q == p) = false := by simpa using hq
  by_cases hd : p ∈ st.disk
  · by_cases hc : st.cache.lookup p = none
    · rw [ensureAndHash_present_new h st p hd hc]
      simp [List.count_append, List.count_cons, hb, Ne.symm hq]
    · rw [ensureAndHash_present_memoized h st p hd hc]
  · rw [ensureAndHash_absent h st p hd]
    simp [List.count_append, List.count_cons, hb, Ne.symm hq]

/-- Claim C5: the hash-to-path mapping is append-only within a run. Once a
path P has a memoized digest (and the cache-on-disk invariant holds, as it
does for every state reached from the empty per-run cache), no later
archive operation of the run recomputes the hash of P or changes the
stored digest for P, and the invariant is maintained. -/
theorem hash_cache_append_only (h : Str → Str) (st : ArchiveState)
    (paths : List Str) (P : Str)
    (hst : CacheOnDisk st) (hmem : st.cache.lookup P ≠ none) :
    (runArchive h st paths).cache.lookup P = st.cache.lookup P ∧
    (runArchive h st paths).hashed.count P = st.hashed.count P ∧
    CacheOnDisk (runArchive h st paths) := by
  induction paths generalizing st with
  | nil => exact ⟨rfl, rfl, hst⟩
  | cons p rest ih =>
    by_cases hp : P = p
    · subst hp
      have heq : (ensureAndHash h st P).1 = st := ensureAndHash_memoized h st P hst hmem
      have := ih st hst hmem
      simpa [runArchive, heq] using this
    · have h1 := ensureAndHash_lookup_ne h st p P hp
      have h2 := ensureAndHash_hashed_ne h st p P hp
      have h3 := ensureAndHash_cacheOnDisk h st p hst
      have h4 : (ensureAndHash h st p).1.cache.lookup P ≠ none := by
        rw [h1]; exact hmem
      obtain ⟨c1, c2, c3⟩ := ih (ensureAndHash h st p).1 h3 h4
      exact ⟨by simpa [runArchive, h1] using c1,
             by simpa [runArchive, h2] using c2,
             by simpa [runArchive] using c3⟩

/-- Claim C5 witness: a state with one memoized archive and two further
operations. -/
theorem hash_cache_append_only_witness :
    CacheOnDisk ⟨[['a']], [(['a'], ['h'])], [], [['a']]⟩ ∧
    (ArchiveState.cache ⟨[['a']], [(['a'], ['h'])], [], [['a']]⟩).lookup ['a'] ≠ none ∧
    ((runArchive (fun _ => ['h']) ⟨[['a']], [(['a'], ['h'])], [], [['a']]⟩
        [['a'], ['b']]).cache.lookup ['a']
      = (ArchiveState.cache ⟨[['a']], [(['a'], ['h'])], [], [['a']]⟩).lookup ['a'] ∧
     (runArchive (fun _ => ['h']) ⟨[['a']], [(['a'], ['h'])], [], [['a']]⟩
        [['a'], ['b']]).hashed.count ['a']
      = (ArchiveState.hashed ⟨[['a']], [(['a'], ['h'])], [], [['a']]⟩).count ['a'] ∧
     CacheOnDisk (runArchive (fun _ => ['h']) ⟨[['a']], [(['a'], ['h'])], [], [['a']]⟩
        [['a'], ['b']])) :=
  ⟨by decide, by decide,
   hash_cache_append_only (fun _ => ['h']) ⟨[['a']], [(['a'], ['h'])], [], [['a']]⟩
     [['a'], ['b']] ['a'] (by decide) (by decide)⟩

namespace NixPackage

/-- Embeds NixPackage._resolve_dependency. The external resolve_dep
utility is the parameter rd: some ids models the first component of its
result, none models the UnresolvedDependency exception it raises.
An identifier in the known-package set resolves to its normalized name
without consulting rd; otherwise rd is consulted, and on failure the
identifier is added to the unresolved accumulator and nothing is
returned. -/
def resolve_dependency (all_pkgs : List Str) (rd : Str → Option (List Str))
    (unresolved : List Str) (d : Str) : List Str × List Str :=
  if d ∈ all_pkgs then ([normalize_name d], unresolved)
  else match rd d with
    | some ids => (ids, unresolved)
    | none => ([], unresolved.insert d)

/-- Embeds NixPackage._resolve_dependencies: the union of the identifiers
each dependency resolves to, threading the unresolved accumulator. -/
def resolve_dependencies (all_pkgs : List Str) (rd : Str → Option (List Str))
    (unresolved : List Str) (deps : List Str) : Finset Str × List Str :=
  deps.foldl
    (fun acc d =>
      let r := resolve_dependency all_pkgs rd acc.2 d
      (acc.1 ∪ r.1.toFinset, r.2))
    (∅, unresolved)

/-- The resolved set of a list of dependencies, as the specification
describes it: the union over the list of the target identifiers each
dependency resolves to. -/
def resolvedSet (all_pkgs : List Str) (rd : Str → Option (List Str))
    (deps : List Str) : Finset Str :=
  deps.foldl
    (fun acc d => acc ∪ (resolve_dependency all_pkgs rd [] d).1.toFinset) ∅

/-- The dependency buckets assembled by NixPackage.__init__, together with
the unresolved accumulator left by the four resolution passes. -/
structure NixBuckets where
  build_inputs : Finset Str
  propagated_build_inputs : Finset Str
  check_inputs : Finset Str
  native_build_inputs : Finset Str
  unresolved_dependencies : List Str
deriving DecidableEq

/-- Embeds the bucket computation of NixPackage.__init__ (lines 90-103):
resolve the build dependencies, then the union of exec, build-export and
buildtool-export dependencies as the propagated inputs, subtract the
propagated inputs from the build inputs, resolve the test dependencies
and subtract the remaining build inputs, and finally resolve the
buildtool dependencies as the native build inputs. -/
def computeBuckets (all_pkgs : List Str) (rd : Str → Option (List Str))
    (build_deps build_export_deps buildtool_deps buildtool_export_deps
     exec_deps test_deps : List Str) : NixBuckets :=
  let r1 := resolve_dependencies all_pkgs rd [] build_deps
  let r2 := resolve_dependencies all_pkgs rd r1.2
    (exec_deps ++ build_export_deps ++ buildtool_export_deps)
  let build_inputs := r1.1 \ r2.1
  let r3 := resolve_dependencies all_pkgs rd r2.2 test_deps
  let check_inputs := r3.1 \ build_inputs
  let r4 := resolve_dependencies all_pkgs rd r3.2 buildtool_deps
  ⟨build_inputs, r2.1, check_inputs, r4.1, r4.2⟩

/-- The structured Nix recipe object constructed at the end of
NixPackage.__init__ (licenses are kept as the upstream license strings;
the NixLicense table is an external collaborator). -/
structure NixDerivation where
  name : Str
  version : Str
  src_url : Str
  src_sha256 : Str
  description : Str
  licenses : List Str
  distro_name : Str
  build_type : Str
  build_inputs : Finset Str
  propagated_build_inputs : Finset Str
  check_inputs : Finset Str
  native_build_inputs : Finset Str
deriving DecidableEq

/-- Embeds the NixPackage.derivation property: accessing the assembled
derivation raises UnresolvedDependency (the error case) whenever the
unresolved-dependency set is non-empty, and returns the assembled
derivation otherwise. -/
def derivation (unresolved_dependencies : List Str) (d : NixDerivation) :
    Except Str NixDerivation :=
  if unresolved_dependencies ≠ [] then
    .error (("failed to resolve dependencies!").toList)
  else .ok d

/-- Embeds the archive path construction of NixPackage.__init__:
os.path.join of the tar directory with normalized-name-version-distro
followed by the tar.gz extension. -/
def archivePath (tar_dir name version distro_name : Str) : Str :=
  tar_dir ++ '/' :: (normalize_name name ++ '-' :: (version ++ '-' ::
    (distro_name ++ (".tar.gz").toList)))

/-- The observable result of one NixPackage construction: the buckets, the
digest used for the source archive, and the known-package set as the
constructor leaves it (the source only reads it, in the membership tests
of _resolve_dependency, and never writes it). -/
structure NixPackageResult where
  buckets : NixBuckets
  src_sha256 : Str
  all_pkgs : List Str
deriving DecidableEq

/-- Embeds the effectful skeleton of NixPackage.__init__: build the archive
path, ensure the archive and obtain its digest through the shared cache,
and compute the dependency buckets. Metadata extraction does not touch the
cache or the known-package set and is omitted here. -/
def init (h : Str → Str) (rd : Str → Option (List Str))
    (st : ArchiveState) (all_pkgs : List Str)
    (tar_dir name version distro_name : Str)
    (build_deps build_export_deps buildtool_deps buildtool_export_deps
     exec_deps test_deps : List Str) : ArchiveState × NixPackageResult :=
  let p := archivePath tar_dir name version distro_name
  let r := ensureAndHash h st p
  let B := computeBuckets all_pkgs rd build_deps build_export_deps
    buildtool_deps buildtool_export_deps exec_deps test_deps
  (r.1, ⟨B, r.2, all_pkgs⟩)

end NixPackage

theorem resolve_dependency_fst (all_pkgs : List Str)
    (rd : Str → Option (List Str)) (u v : List Str) (d : Str) :
    (NixPackage.resolve_dependency all_pkgs rd u d).1
      = (NixPackage.resolve_dependency all_pkgs rd v d).1 := by
  unfold NixPackage.resolve_dependency
  by_cases hd : d ∈ all_pkgs
  · simp [hd]
  · cases rd d <;> simp [hd]

theorem resolve_dependencies_foldl (all_pkgs : List Str)
    (rd : Str → Option (List Str)) (deps : List Str) :
    ∀ (acc : Finset Str) (u : List Str),
      (deps.foldl
        (fun acc d =>
          let r := NixPackage.resolve_dependency all_pkgs rd acc.2 d
          (acc.1 ∪ r.1.toFinset, r.2)) (acc, u)).1
      = deps.foldl
          (fun s d =>
            s ∪ (NixPackage.resolve_dependency all_pkgs rd [] d).1.toFinset)
          acc := by
  induction deps with
  | nil => intro acc u; rfl
  | cons d rest ih =>
    intro acc u
    simp only [List.foldl_cons]
    rw [ih]
    rw [resolve_dependency_fst all_pkgs rd u [] d]

/-- The set component of _resolve_dependencies does not depend on the
unresolved accumulator: it is the resolved union of the dependency list. -/
theorem resolve_dependencies_fst (all_pkgs : List Str)
    (rd : Str → Option (List Str)) (u : List Str) (deps : List Str) :
    (NixPackage.resolve_dependencies all_pkgs rd u deps).1
      = NixPackage.resolvedSet all_pkgs rd deps := by
  unfold NixPackage.resolve_dependencies NixPackage.resolvedSet
  exact resolve_dependencies_foldl all_pkgs rd deps ∅ u

/-- Claim C8: in every assembled recipe the propagated bucket is the
resolved union of the exec, build-export and buildtool-export
dependencies; the private build-input bucket is the resolved build
dependencies minus the propagated bucket, hence disjoint from it; and the
check bucket is disjoint from the private build-input bucket. -/
theorem nix_bucket_structure (all_pkgs : List Str)
    (rd : Str → Option (List Str))
    (build_deps build_export_deps buildtool_deps buildtool_export_deps
     exec_deps test_deps : List Str) :
    (NixPackage.computeBuckets all_pkgs rd build_deps build_export_deps
        buildtool_deps buildtool_export_deps exec_deps
        test_deps).propagated_build_inputs
      = NixPackage.resolvedSet all_pkgs rd
          (exec_deps ++ build_export_deps ++ buildtool_export_deps) ∧
    (NixPackage.computeBuckets all_pkgs rd build_deps build_export_deps
        buildtool_deps buildtool_export_deps exec_deps test_deps).build_inputs
      = NixPackage.resolvedSet all_pkgs rd build_deps \
          (NixPackage.computeBuckets all_pkgs rd build_deps build_export_deps
            buildtool_deps buildtool_export_deps exec_deps
            test_deps).propagated_build_inputs ∧
    Disjoint
      (NixPackage.computeBuckets all_pkgs rd build_deps build_export_deps
        buildtool_deps buildtool_export_deps exec_deps test_deps).build_inputs
      (NixPackage.computeBuckets all_pkgs rd build_deps build_export_deps
        buildtool_deps buildtool_export_deps exec_deps
        test_deps).propagated_build_inputs ∧
    Disjoint
      (NixPackage.computeBuckets all_pkgs rd build_deps build_export_deps
        buildtool_deps buildtool_export_deps exec_deps test_deps).check_inputs
      (NixPackage.computeBuckets all_pkgs rd build_deps build_export_deps
        buildtool_deps buildtool_export_deps exec_deps
        test_deps).build_inputs := by
  refine ⟨?_, ?_, ?_, ?_⟩
  · dsimp only [NixPackage.computeBuckets]
    exact resolve_dependencies_fst all_pkgs rd _ _
  · dsimp only [NixPackage.computeBuckets]
    rw [resolve_dependencies_fst all_pkgs rd _ build_deps]
  · dsimp only [NixPackage.computeBuckets]
    exact Finset.sdiff_disjoint
  · dsimp only [NixPackage.computeBuckets]
    exact Finset.sdiff_disjoint

/-- Claim C7: a dependency identifier in the known-package set resolves to
the singleton of its normalized name (underscores replaced by dashes, as
my_ros_pkg to my-ros-pkg), for any cross-reference table rd, without
touching the unresolved accumulator. -/
theorem known_package_fast_path (all_pkgs : List Str)
    (rd : Str → Option (List Str)) (unresolved : List Str) (d : Str)
    (hd : d ∈ all_pkgs) :
    NixPackage.resolve_dependency all_pkgs rd unresolved d
      = ([normalize_name d], unresolved) ∧
    normalize_name (("my_ros_pkg").toList) = ("my-ros-pkg").toList := by
  exact ⟨by simp [NixPackage.resolve_dependency, hd], by decide⟩

/-- Claim C7 witness: a concrete known package resolved against a table
that would fail on every identifier, showing the table is not consulted. -/
theorem known_package_fast_path_witness :
    (("my_ros_pkg").toList ∈ [("my_ros_pkg").toList]) ∧
    (NixPackage.resolve_dependency [("my_ros_pkg").toList] (fun _ => none)
        [] (("my_ros_pkg").toList)
      = ([normalize_name (("my_ros_pkg").toList)], []) ∧
     normalize_name (("my_ros_pkg").toList) = ("my-ros-pkg").toList) :=
  ⟨by decide,
   known_package_fast_path [("my_ros_pkg").toList] (fun _ => none) []
     (("my_ros_pkg").toList) (by decide)⟩

theorem ensureAndHash_idem (h : Str → Str) (st : ArchiveState) (p : Str)
    (hdisk : p ∈ st.disk) :
    (ensureAndHash h st p).1.downloads = st.downloads ∧
    (ensureAndHash h (ensureAndHash h st p).1 p).1.downloads = st.downloads ∧
    (ensureAndHash h (ensureAndHash h st p).1 p).2 = (ensureAndHash h st p).2 := by
  by_cases hc : st.cache.lookup p = none
  · have e1 := ensureAndHash_present_new h st p hdisk hc
    have hd2 : p ∈ ((ensureAndHash h st p).1).disk := by
      rw [e1]; exact hdisk
    have hc2 : ((ensureAndHash h st p).1).cache.lookup p ≠ none := by
      rw [e1]; simp [List.lookup]
    have e2 := ensureAndHash_present_memoized h (ensureAndHash h st p).1 p hd2 hc2
    refine ⟨by rw [e1], by rw [e2, e1], ?_⟩
    rw [e2, e1]
    simp [List.lookup]
  · have e1 := ensureAndHash_present_memoized h st p hdisk hc
    refine ⟨by rw [e1], by rw [e1]; rw [e1], by rw [e1]; rw [e1]⟩

/-- Claim C6: constructing the recipe twice for the same package with the
archive already present at the cache path downloads nothing in either
construction and yields the identical digest both times. -/
theorem ensure_archive_idempotent (h : Str → Str)
    (rd : Str → Option (List Str)) (st : ArchiveState) (all_pkgs : List Str)
    (tar_dir name version distro_name : Str)
    (build_deps build_export_deps buildtool_deps buildtool_export_deps
     exec_deps test_deps : List Str)
    (hdisk : NixPackage.archivePath tar_dir name version distro_name ∈ st.disk) :
    (NixPackage.init h rd st all_pkgs tar_dir name version distro_name
        build_deps build_export_deps buildtool_deps buildtool_export_deps
        exec_deps test_deps).1.downloads = st.downloads ∧
    (NixPackage.init h rd
        (NixPackage.init h rd st all_pkgs tar_dir name version distro_name
          build_deps build_export_deps buildtool_deps buildtool_export_deps
          exec_deps test_deps).1
        all_pkgs tar_dir name version distro_name
        build_deps build_export_deps buildtool_deps buildtool_export_deps
        exec_deps test_deps).1.downloads = st.downloads ∧
    (NixPackage.init h rd
        (NixPackage.init h rd st all_pkgs tar_dir name version distro_name
          build_deps build_export_deps buildtool_deps buildtool_export_deps
          exec_deps test_deps).1
        all_pkgs tar_dir name version distro_name
        build_deps build_export_deps buildtool_deps buildtool_export_deps
        exec_deps test_deps).2.src_sha256
      = (NixPackage.init h rd st all_pkgs tar_dir name version distro_name
          build_deps build_export_deps buildtool_deps buildtool_export_deps
          exec_deps test_deps).2.src_sha256 := by
  dsimp only [NixPackage.init]
  exact ensureAndHash_idem h st
    (NixPackage.archivePath tar_dir name version distro_name) hdisk

/-- Claim C6 witness: a concrete state with the archive already on disk. -/
theorem ensure_archive_idempotent_witness :
    (NixPackage.archivePath ['t'] ['n'] ['1'] ['d']
        ∈ (ArchiveState.mk [("t/n-1-d.tar.gz").toList] [] [] []).disk) ∧
    ((NixPackage.init (fun _ => ['h']) (fun _ => none)
        (ArchiveState.mk [("t/n-1-d.tar.gz").toList] [] [] [])
        [] ['t'] ['n'] ['1'] ['d'] [] [] [] [] [] []).1.downloads = [] ∧
     (NixPackage.init (fun _ => ['h']) (fun _ => none)
        (NixPackage.init (fun _ => ['h']) (fun _ => none)
          (ArchiveState.mk [("t/n-1-d.tar.gz").toList] [] [] [])
          [] ['t'] ['n'] ['1'] ['d'] [] [] [] [] [] []).1
        [] ['t'] ['n'] ['1'] ['d'] [] [] [] [] [] []).1.downloads = [] ∧
     (NixPackage.init (fun _ => ['h']) (fun _ => none)
        (NixPackage.init (fun _ => ['h']) (fun _ => none)
          (ArchiveState.mk [("t/n-1-d.tar.gz").toList] [] [] [])
          [] ['t'] ['n'] ['1'] ['d'] [] [] [] [] [] []).1
        [] ['t'] ['n'] ['1'] ['d'] [] [] [] [] [] []).2.src_sha256
      = (NixPackage.init (fun _ => ['h']) (fun _ => none)
          (ArchiveState.mk [("t/n-1-d.tar.gz").toList] [] [] [])
          [] ['t'] ['n'] ['1'] ['d'] [] [] [] [] [] []).2.src_sha256) :=
  ⟨by decide,
   ensure_archive_idempotent (fun _ => ['h']) (fun _ => none)
     (ArchiveState.mk [("t/n-1-d.tar.gz").toList] [] [] [])
     [] ['t'] ['n'] ['1'] ['d'] [] [] [] [] [] [] (by decide)⟩

/-- Claim C10: one NixPackage construction changes the shared hash cache at
most at the key equal to its own archive path (every other key keeps its
stored digest) and leaves the known-package set unchanged. -/
theorem nix_package_frame (h : Str → Str)
    (rd : Str → Option (List Str)) (st : ArchiveState) (all_pkgs : List Str)
    (tar_dir name version distro_name : Str)
    (build_deps build_export_deps buildtool_deps buildtool_export_deps
     exec_deps test_deps : List Str) (q : Str)
    (hq : q ≠ NixPackage.archivePath tar_dir name version distro_name) :
    (NixPackage.init h rd st all_pkgs tar_dir name version distro_name
        build_deps build_export_deps buildtool_deps buildtool_export_deps
        exec_deps test_deps).1.cache.lookup q = st.cache.lookup q ∧
    (NixPackage.init h rd st all_pkgs tar_dir name version distro_name
        build_deps build_export_deps buildtool_deps buildtool_export_deps
        exec_deps test_deps).2.all_pkgs = all_pkgs := by
  dsimp only [NixPackage.init]
  exact ⟨ensureAndHash_lookup_ne h st _ q hq, rfl⟩

/-- Claim C10 witness at a concrete state and a key distinct from the
archive path. -/
theorem nix_package_frame_witness :
    (['q'] ≠ NixPackage.archivePath ['t'] ['n'] ['1'] ['d']) ∧
    ((NixPackage.init (fun _ => ['h']) (fun _ => none)
        (ArchiveState.mk [] [(['q'], ['v'])] [] [])
        [['x']] ['t'] ['n'] ['1'] ['d'] [] [] [] [] [] []).1.cache.lookup ['q']
      = (ArchiveState.mk [] [(['q'], ['v'])] [] []).cache.lookup ['q'] ∧
     (NixPackage.init (fun _ => ['h']) (fun _ => none)
        (ArchiveState.mk [] [(['q'], ['v'])] [] [])
        [['x']] ['t'] ['n'] ['1'] ['d'] [] [] [] [] [] []).2.all_pkgs = [['x']]) :=
  ⟨by decide,
   nix_package_frame (fun _ => ['h']) (fun _ => none)
     (ArchiveState.mk [] [(['q'], ['v'])] [] [])
     [['x']] ['t'] ['n'] ['1'] ['d'] [] [] [] [] [] [] ['q'] (by decide)⟩

/-- The per-package outcome of the two generation attempts in the loop body
of gen_packages.generate_installers: the gentoo_installer constructor can
raise, rendering the ebuild and metadata text can raise
UnresolvedDependency (carrying the list returned by get_unresolved) or
KeyError, and otherwise the subsequent file writes either succeed or
raise an I/O error. -/
inductive GenOutcome where
  | genException
  | textUnresolved (deps : List Str)
  | textKeyError
  | textOk (writeFails : Bool)
deriving DecidableEq

/-- One package of a batch run: its name, computed version, whether an
ebuild file for it already exists, and the outcome of its generation
attempt. -/
structure PkgRun where
  name : Str
  version : Str
  ebuild_exists : Bool
  outcome : GenOutcome
deriving DecidableEq

/-- The mutable state of generate_installers: the success and failure
counters, the unresolved map borkd_pkgs, the changelog entries, the two
retained-installer lists of the write-failure path, and the recipe files
written to disk, each recorded as the (package, version) determining the
file path. -/
structure DriverState where
  succeeded : Nat
  failed : Nat
  borkd_pkgs : List (Str × List Str)
  changes : List (Str × Str)
  installers : List Str
  bad_installers : List Str
  written : List (Str × Str)
deriving DecidableEq

/-- Embeds the loop body of gen_packages.generate_installers (lines 54-111).
An existing up-to-date ebuild is skipped and counted as succeeded. The
three failing outcomes count as failed, with the unresolved outcome also
recording the package and its unresolved list in borkd_pkgs. A package
whose text generation succeeds is counted as succeeded before the write is
attempted; a write failure then retains the installer in both installers
and bad_installers and also counts the package as failed (a failure at the
first file open writes nothing; partial writes are not modelled), while a
successful write records the recipe file and the changelog entry. -/
def driverStep (preserve_existing : Bool) (st : DriverState) (p : PkgRun) :
    DriverState :=
  if preserve_existing ∧ p.ebuild_exists then
    { st with succeeded := st.succeeded + 1 }
  else
    match p.outcome with
    | .genException => { st with failed := st.failed + 1 }
    | .textUnresolved deps =>
        { st with borkd_pkgs := st.borkd_pkgs ++ [(p.name, deps)],
                  failed := st.failed + 1 }
    | .textKeyError => { st with failed := st.failed + 1 }
    | .textOk writeFails =>
        let st1 := { st with succeeded := st.succeeded + 1 }
        if writeFails then
          { st1 with installers := st1.installers ++ [p.name],
                     bad_installers := st1.bad_installers ++ [p.name],
                     failed := st1.failed + 1 }
        else
          { st1 with written := st1.written ++ [(p.name, p.version)],
                     changes := st1.changes ++ [(p.name, p.version)] }

/-- The driver state at the start of generate_installers. -/
def initialDriverState : DriverState := ⟨0, 0, [], [], [], [], []⟩

/-- Embeds gen_packages.generate_installers as the fold of the loop body
over the (sorted) package sequence of the distribution. -/
def generate_installers (preserve_existing : Bool) (pkgs : List PkgRun) :
    DriverState :=
  pkgs.foldl (driverStep preserve_existing) initialDriverState

/-- Whether the loop body increments the failed counter for a package. -/
def countsAsFailed (preserve_existing : Bool) (p : PkgRun) : Bool :=
  if preserve_existing ∧ p.ebuild_exists then false
  else
    match p.outcome with
    | .genException => true
    | .textUnresolved _ => true
    | .textKeyError => true
    | .textOk writeFails => writeFails

/-- The borkd_pkgs entries one package contributes. -/
def borkdDelta (preserve_existing : Bool) (p : PkgRun) :
    List (Str × List Str) :=
  if preserve_existing ∧ p.ebuild_exists then []
  else
    match p.outcome with
    | .textUnresolved deps => [(p.name, deps)]
    | _ => []

/-- The recipe files one package contributes. -/
def writtenDelta (preserve_existing : Bool) (p : PkgRun) :
    List (Str × Str) :=
  if preserve_existing ∧ p.ebuild_exists then []
  else
    match p.outcome with
    | .textOk writeFails => if writeFails then [] else [(p.name, p.version)]
    | _ => []

theorem driverStep_borkd (pe : Bool) (st : DriverState) (p : PkgRun) :
    (driverStep pe st p).borkd_pkgs = st.borkd_pkgs ++ borkdDelta pe p := by
  unfold driverStep borkdDelta
  by_cases hs : pe ∧ p.ebuild_exists
  · simp [hs]
  · cases h : p.outcome with
    | genException => simp [hs]
    | textUnresolved deps => simp [hs]
    | textKeyError => simp [hs]
    | textOk wf => cases wf <;> simp [hs]

theorem driverStep_written (pe : Bool) (st : DriverState) (p : PkgRun) :
    (driverStep pe st p).written = st.written ++ writtenDelta pe p := by
  unfold driverStep writtenDelta
  by_cases hs : pe ∧ p.ebuild_exists
  · simp [hs]
  · cases h : p.outcome with
    | genException => simp [hs]
    | textUnresolved deps => simp [hs]
    | textKeyError => simp [hs]
    | textOk wf => cases wf <;> simp [hs]

theorem driverStep_failed (pe : Bool) (st : DriverState) (p : PkgRun) :
    (driverStep pe st p).failed
      = st.failed + (if countsAsFailed pe p then 1 else 0) := by
  unfold driverStep countsAsFailed
  by_cases hs : pe ∧ p.ebuild_exists
  · simp [hs]
  · cases h : p.outcome with
    | genException => simp [hs]
    | textUnresolved deps => simp [hs]
    | textKeyError => simp [hs]
    | textOk wf => cases wf <;> simp [hs]

theorem run_borkd (pe : Bool) (pkgs : List PkgRun) :
    ∀ st : DriverState,
      (pkgs.foldl (driverStep pe) st).borkd_pkgs
        = st.borkd_pkgs ++ (pkgs.map (borkdDelta pe)).flatten := by
  induction pkgs with
  | nil => intro st; simp
  | cons p rest ih =>
    intro st
    simp only [List.foldl_cons, List.map_cons, List.flatten_cons]
    rw [ih, driverStep_borkd, List.append_assoc]

theorem run_written (pe : Bool) (pkgs : List PkgRun) :
    ∀ st : DriverState,
      (pkgs.foldl (driverStep pe) st).written
        = st.written ++ (pkgs.map (writtenDelta pe)).flatten := by
  induction pkgs with
  | nil => intro st; simp
  | cons p rest ih =>
    intro st
    simp only [List.foldl_cons, List.map_cons, List.flatten_cons]
    rw [ih, driverStep_written, List.append_assoc]

theorem run_failed (pe : Bool) (pkgs : List PkgRun) :
    ∀ st : DriverState,
      (pkgs.foldl (driverStep pe) st).failed
        = st.failed + (pkgs.filter (countsAsFailed pe)).length := by
  induction pkgs with
  | nil => intro st; simp
  | cons p rest ih =>
    intro st
    simp only [List.foldl_cons, List.filter_cons]
    rw [ih, driverStep_failed]
    by_cases hc : countsAsFailed pe p
    · simp [hc]
      omega
    · simp [hc]

theorem lookup_cons_ne_val {β : Type} {q p : Str} {v : β}
    {l : List (Str × β)} (hq : q ≠ p) :
    List.lookup q ((p, v) :: l) = List.lookup q l := by
  have hb : (q == p) = false := by simpa using hq
  simp [List.lookup, hb]

theorem lookup_append_no_key {β : Type} {k : Str} {l1 l2 : List (Str × β)}
    (hk : ∀ e ∈ l1, e.1 ≠ k) : (l1 ++ l2).lookup k = l2.lookup k := by
  induction l1 with
  | nil => rfl
  | cons e rest ih =>
    obtain ⟨a, b⟩ := e
    rw [List.cons_append,
        lookup_cons_ne_val (fun hka => hk (a, b) (List.mem_cons_self _ _) hka.symm)]
    exact ih (fun e he => hk e (List.mem_cons_of_mem _ he))

theorem borkdDelta_keys (pe : Bool) (p : PkgRun) :
    ∀ e ∈ borkdDelta pe p, e.1 = p.name := by
  unfold borkdDelta
  by_cases hs : pe ∧ p.ebuild_exists
  · simp [hs]
  · cases h : p.outcome with
    | genException => simp [hs]
    | textUnresolved deps => simp [hs]
    | textKeyError => simp [hs]
    | textOk wf => simp [hs]

theorem writtenDelta_keys (pe : Bool) (p : PkgRun) :
    ∀ e ∈ writtenDelta pe p, e.1 = p.name := by
  unfold writtenDelta
  by_cases hs : pe ∧ p.ebuild_exists
  · simp [hs]
  · cases h : p.outcome with
    | genException => simp [hs]
    | textUnresolved deps => simp [hs]
    | textKeyError => simp [hs]
    | textOk wf => cases wf <;> simp [hs]

theorem borkd_lookup (pe : Bool) (P : PkgRun) (L : List Str) :
    ∀ pkgs : List PkgRun, (pkgs.map PkgRun.name).Nodup → P ∈ pkgs →
      P.outcome = .textUnresolved L → ¬(pe ∧ P.ebuild_exists) →
      ((pkgs.map (borkdDelta pe)).flatten).lookup P.name = some L := by
  intro pkgs
  induction pkgs with
  | nil => intro _ hP; simp at hP
  | cons q rest ih =>
    intro hnd hP hout hskip
    simp only [List.map_cons, List.flatten_cons]
    rcases List.mem_cons.1 hP with rfl | hP
    · have hdelta : borkdDelta pe P = [(P.name, L)] := by
        unfold borkdDelta
        rw [if_neg hskip, hout]
      rw [hdelta, List.cons_append]
      simp [List.lookup]
    · have hq : q.name ≠ P.name := by
        intro hqq
        exact (List.nodup_cons.1 hnd).1
          (hqq ▸ List.mem_map_of_mem PkgRun.name hP)
      rw [lookup_append_no_key
          (fun e he => by rw [borkdDelta_keys pe q e he]; exact hq)]
      exact ih (List.nodup_cons.1 hnd).2 hP hout hskip

theorem written_flatten_keys (pe : Bool) :
    ∀ (pkgs : List PkgRun) (e : Str × Str),
      e ∈ (pkgs.map (writtenDelta pe)).flatten → e.1 ∈ pkgs.map PkgRun.name := by
  intro pkgs
  induction pkgs with
  | nil => intro e he; simp at he
  | cons q rest ih =>
    intro e he
    simp only [List.map_cons, List.flatten_cons, List.mem_append] at he
    simp only [List.map_cons, List.mem_cons]
    rcases he with he | he
    · exact Or.inl (writtenDelta_keys pe q e he)
    · exact Or.inr (ih e he)

theorem written_no_entry (pe : Bool) (P : PkgRun) (L : List Str) :
    ∀ pkgs : List PkgRun, (pkgs.map PkgRun.name).Nodup → P ∈ pkgs →
      P.outcome = .textUnresolved L →
      ∀ e ∈ (pkgs.map (writtenDelta pe)).flatten, e.1 ≠ P.name := by
  intro pkgs
  induction pkgs with
  | nil => intro _ hP; simp at hP
  | cons q rest ih =>
    intro hnd hP hout e he
    simp only [List.map_cons, List.flatten_cons, List.mem_append] at he
    rcases List.mem_cons.1 hP with rfl | hP
    · rcases he with he | he
      · have hdelta : writtenDelta pe P = [] := by
          unfold writtenDelta
          by_cases hs : pe ∧ P.ebuild_exists
          · rw [if_pos hs]
          · rw [if_neg hs, hout]
        rw [hdelta] at he
        simp at he
      · intro hname
        exact (List.nodup_cons.1 hnd).1
          (hname ▸ written_flatten_keys pe rest e he)
    · rcases he with he | he
      · rw [writtenDelta_keys pe q e he]
        intro hqq
        exact (List.nodup_cons.1 hnd).1
          (hqq ▸ List.mem_map_of_mem PkgRun.name hP)
      · exact ih (List.nodup_cons.1 hnd).2 hP hout e he

/-- Claim C2: for a package whose text rendering raises
UnresolvedDependency with unresolved list L (and which is not skipped),
the batch records exactly L for it in borkd_pkgs, writes no recipe file
for it, and counts it among the failed packages; and accessing the
assembled derivation with a non-empty unresolved set raises the
unresolved-dependency error. -/
theorem unresolved_packages_reported (pe : Bool) (pkgs : List PkgRun)
    (P : PkgRun) (L : List Str) (u : List Str) (d : NixPackage.NixDerivation)
    (hnd : (pkgs.map PkgRun.name).Nodup) (hP : P ∈ pkgs)
    (hout : P.outcome = .textUnresolved L)
    (hskip : ¬(pe ∧ P.ebuild_exists)) (hu : u ≠ []) :
    (generate_installers pe pkgs).borkd_pkgs.lookup P.name = some L ∧
    ((generate_installers pe pkgs).written.map Prod.fst).count P.name = 0 ∧
    (generate_installers pe pkgs).failed
      = (pkgs.filter (countsAsFailed pe)).length ∧
    countsAsFailed pe P = true ∧
    NixPackage.derivation u d
      = Except.error (("failed to resolve dependencies!").toList) := by
  refine ⟨?_, ?_, ?_, ?_, ?_⟩
  · unfold generate_installers
    rw [run_borkd]
    rw [show initialDriverState.borkd_pkgs = [] from rfl, List.nil_append]
    exact borkd_lookup pe P L pkgs hnd hP hout hskip
  · unfold generate_installers
    rw [run_written]
    rw [show initialDriverState.written = [] from rfl, List.nil_append]
    rw [List.count_eq_zero]
    intro hmem
    obtain ⟨e, he, hfst⟩ := List.mem_map.1 hmem
    exact written_no_entry pe P L pkgs hnd hP hout e he hfst
  · unfold generate_installers
    rw [run_failed]
    rw [show initialDriverState.failed = 0 from rfl, Nat.zero_add]
  · unfold countsAsFailed
    rw [if_neg hskip, hout]
  · unfold NixPackage.derivation
    rw [if_pos hu]

/-- Claim C2 witness: a one-package batch whose only package has an
unresolved dependency. -/
theorem unresolved_packages_reported_witness :
    ((([⟨['a'], ['1'], false, .textUnresolved [['z']]⟩] : List PkgRun).map
        PkgRun.name).Nodup ∧
     (⟨['a'], ['1'], false, .textUnresolved [['z']]⟩ : PkgRun)
        ∈ ([⟨['a'], ['1'], false, .textUnresolved [['z']]⟩] : List PkgRun) ∧
     (⟨['a'], ['1'], false, .textUnresolved [['z']]⟩ : PkgRun).outcome
        = .textUnresolved [['z']] ∧
     ¬(false ∧ (⟨['a'], ['1'], false,
          .textUnresolved [['z']]⟩ : PkgRun).ebuild_exists) ∧
     ([['z']] : List Str) ≠ []) ∧
    ((generate_installers false
        [⟨['a'], ['1'], false, .textUnresolved [['z']]⟩]).borkd_pkgs.lookup ['a']
      = some [['z']] ∧
     ((generate_installers false
        [⟨['a'], ['1'], false, .textUnresolved [['z']]⟩]).written.map
          Prod.fst).count ['a'] = 0 ∧
     (generate_installers false
        [⟨['a'], ['1'], false, .textUnresolved [['z']]⟩]).failed
      = (([⟨['a'], ['1'], false, .textUnresolved [['z']]⟩] : List PkgRun).filter
          (countsAsFailed false)).length ∧
     countsAsFailed false ⟨['a'], ['1'], false, .textUnresolved [['z']]⟩ = true ∧
     NixPackage.derivation [['z']]
        (NixPackage.NixDerivation.mk [] [] [] [] [] [] [] [] ∅ ∅ ∅ ∅)
      = Except.error (("failed to resolve dependencies!").toList)) :=
  ⟨⟨by decide, by decide, by decide, by decide, by decide⟩,
   unresolved_packages_reported false
     [⟨['a'], ['1'], false, .textUnresolved [['z']]⟩]
     ⟨['a'], ['1'], false, .textUnresolved [['z']]⟩ [['z']] [['z']]
     (NixPackage.NixDerivation.mk [] [] [] [] [] [] [] [] ∅ ∅ ∅ ∅)
     (by decide) (by decide) (by decide) (by decide) (by decide)⟩

/-- A two-package batch whose first package generates successfully but
fails at the write step, and whose second package succeeds throughout. -/
def write_failure_input : List PkgRun :=
  [⟨['a'], ['1'], false, .textOk true⟩, ⟨['b'], ['2'], false, .textOk false⟩]

/-- Claim C1 is contradicted by the code at this input: the driver
increments the succeeded counter before attempting the write, so the
write-failed first package is counted both as a success and as a failure
(succeeded is 2 for a batch in which one of the two writes failed), while
the batch does continue and the second package is still written. -/
theorem write_failure_counted_as_success :
    (generate_installers false write_failure_input).succeeded = 2 ∧
    (generate_installers false write_failure_input).failed = 1 ∧
    (generate_installers false write_failure_input).bad_installers = [['a']] ∧
    (generate_installers false write_failure_input).written = [(['b'], ['2'])] := by
  decide

/-- A value of the dictionary produced by xmltodict: a text node, a list
of nodes, or an attribute dictionary with string keys. -/
inductive PyVal where
  | str (s : Str)
  | list (xs : List PyVal)
  | dict (entries : List (Str × PyVal))

/-- The two metadata_xml fields assigned by the maintainer block; none
models a field untouched by the block (left at whatever default the
external metadata_xml class gave it). -/
structure MetadataXml where
  upstream_email : Option PyVal
  upstream_name : Option PyVal

/-- The Python exceptions the maintainer block can raise. -/
inductive PyErr where
  | keyError
  | typeError
  | indexError
deriving DecidableEq

def maintainerKey : Str := ("maintainer").toList

def emailKey : Str := ("@email").toList

def textKey : Str := ("#text").toList

def unknownName : Str := ("UNKNOWN").toList

/-- Embeds the maintainer block of gen_packages._gen_metadata_for_package
(lines 133-145), taking the parsed package element as an attribute
dictionary. A list-shaped maintainer field takes element 0 and reads its
email attribute and its text node; a mapping whose email attribute is
itself a list makes Python index the maintainer mapping with the integer
0, which raises KeyError on a string-keyed dictionary; any other mapping
has its email attribute taken directly, with a missing text node replaced
by the fixed placeholder UNKNOWN; a missing maintainer field leaves the
metadata object untouched. Indexing a text node with a string key raises
TypeError. -/
def extractMaintainer (package : List (Str × PyVal)) (meta : MetadataXml) :
    Except PyErr MetadataXml :=
  match package.lookup maintainerKey with
  | none => .ok meta
  | some (.list xs) =>
    match xs.get? 0 with
    | none => .error .indexError
    | some (.dict fes) =>
      match fes.lookup emailKey with
      | none => .error .keyError
      | some email =>
        match fes.lookup textKey with
        | none => .error .keyError
        | some nm =>
          .ok { meta with upstream_email := some email,
                          upstream_name := some nm }
    | some _ => .error .typeError
  | some (.dict es) =>
    match es.lookup emailKey with
    | none => .error .keyError
    | some (.list _) => .error .keyError
    | some email =>
      match es.lookup textKey with
      | some nm =>
        .ok { meta with upstream_email := some email,
                        upstream_name := some nm }
      | none =>
        .ok { meta with upstream_email := some email,
                        upstream_name := some (.str unknownName) }
  | some (.str _) => .error .typeError

/-- Claim C9: for the three maintainer shapes (a single mapping with email
and text, a list of mappings whose first element has email and text, and
a single mapping with email but no text node) extraction returns without
raising, and sets the maintainer email and name accordingly, the missing
display name becoming the placeholder UNKNOWN. -/
theorem maintainer_shapes (meta : MetadataXml)
    (p1 p2 p3 : List (Str × PyVal)) (e1 n1 e2 n2 e3 : Str)
    (rest : List PyVal)
    (h1 : p1.lookup maintainerKey
        = some (.dict [(emailKey, .str e1), (textKey, .str n1)]))
    (h2 : p2.lookup maintainerKey
        = some (.list (.dict [(emailKey, .str e2), (textKey, .str n2)] :: rest)))
    (h3 : p3.lookup maintainerKey = some (.dict [(emailKey, .str e3)])) :
    extractMaintainer p1 meta
      = .ok { meta with upstream_email := some (.str e1),
                        upstream_name := some (.str n1) } ∧
    extractMaintainer p2 meta
      = .ok { meta with upstream_email := some (.str e2),
                        upstream_name := some (.str n2) } ∧
    extractMaintainer p3 meta
      = .ok { meta with upstream_email := some (.str e3),
                        upstream_name := some (.str unknownName) } := by
  have htk : (textKey == emailKey) = false := by decide
  refine ⟨?_, ?_, ?_⟩
  · rw [extractMaintainer, h1]
    simp [List.lookup, htk]
  · rw [extractMaintainer, h2]
    simp [List.lookup, htk]
  · rw [extractMaintainer, h3]
    simp [List.lookup, htk]

/-- Claim C9 witness at three concrete package elements, one per
maintainer shape. -/
theorem maintainer_shapes_witness :
    ((([(maintainerKey,
          PyVal.dict [(emailKey, .str ['e']), (textKey, .str ['n'])])] :
        List (Str × PyVal)).lookup maintainerKey
      = some (.dict [(emailKey, .str ['e']), (textKey, .str ['n'])])) ∧
     (([(maintainerKey,
          PyVal.list [PyVal.dict [(emailKey, .str ['f']), (textKey, .str ['m'])]])] :
        List (Str × PyVal)).lookup maintainerKey
      = some (.list (PyVal.dict [(emailKey, .str ['f']), (textKey, .str ['m'])] :: []))) ∧
     (([(maintainerKey, PyVal.dict [(emailKey, .str ['g'])])] :
        List (Str × PyVal)).lookup maintainerKey
      = some (.dict [(emailKey, .str ['g'])]))) ∧
    (extractMaintainer
        [(maintainerKey,
          PyVal.dict [(emailKey, .str ['e']), (textKey, .str ['n'])])]
        (MetadataXml.mk none none)
      = .ok { MetadataXml.mk none none with
                upstream_email := some (.str ['e']),
                upstream_name := some (.str ['n']) } ∧
     extractMaintainer
        [(maintainerKey,
          PyVal.list [PyVal.dict [(emailKey, .str ['f']), (textKey, .str ['m'])]])]
        (MetadataXml.mk none none)
      = .ok { MetadataXml.mk none none with
                upstream_email := some (.str ['f']),
                upstream_name := some (.str ['m']) } ∧
     extractMaintainer
        [(maintainerKey, PyVal.dict [(emailKey, .str ['g'])])]
        (MetadataXml.mk none none)
      = .ok { MetadataXml.mk none none with
                upstream_email := some (.str ['g']),
                upstream_name := some (.str unknownName) }) :=
  ⟨⟨by rfl, by rfl, by rfl⟩,
   maintainer_shapes (MetadataXml.mk none none)
     [(maintainerKey, PyVal.dict [(emailKey, .str ['e']), (textKey, .str ['n'])])]
     [(maintainerKey,
       PyVal.list [PyVal.dict [(emailKey, .str ['f']), (textKey, .str ['m'])]])]
     [(maintainerKey, PyVal.dict [(emailKey, .str ['g'])])]
     ['e'] ['n'] ['f'] ['m'] ['g'] []
     (by rfl) (by rfl) (by rfl)⟩

end Superflore
